import Mathlib

/-!
# sstring: a small-string-optimised string

A shallow embedding of `src/include/sstring.h` (`ss::String<char>`, the alias
`ss::string`) and the properties of its three storage categories.

Conventions of the embedding.

* A code unit (`char`) and a byte (`uint8_t`) are natural numbers below 256; a
  `size_t` is a natural number below `2 ^ 64`. Every conversion to one of these
  types is written as an explicit `%`.
* The union of `String` is its 24 bytes, `bytes_`; the members `small_`,
  `medium_` and `large_` are views of those bytes. An 8-byte field is laid out
  in the byte order of the machine, which is the parameter `le`
  (`IS_LITTLE_ENDIAN`) of every function that touches the layout.
* The storage of a `String` under construction is indeterminate; the
  constructor therefore takes the previous contents of the object as `self`.
* The free store is explicit state (`Heap`): the live allocations with their
  contents and the calls made to the allocator so far.
* The source sequence handed to the constructor is the list of code units found
  in memory from the pointer onwards; `c_str S` is `S` followed by its NUL.
* An output stream is the list of code units written to it.
-/

namespace ss

/-! ## Target constants -/

/-- The value `sizeof(size_t)`, also the size of a pointer, on the 64-bit target. -/
def sizeof_size_t : Nat := 8

/-- The value `sizeof(CharT)` for `CharT = char`. -/
def sizeof_CharT : Nat := 1

/-- The value `sizeof(Medium)`: a pointer and two `size_t`, without padding. -/
def sizeof_Medium : Nat := 3 * sizeof_size_t

/-- The value `sizeof(bytes_)`, declared as `uint8_t bytes_[sizeof(Medium)]`. -/
def sizeof_bytes_ : Nat := sizeof_Medium

/-- The number of values of `size_t`; conversion to `size_t` is `% SIZE_MOD`. -/
def SIZE_MOD : Nat := 2 ^ (8 * sizeof_size_t)

/-- The number of values of `uint8_t`; conversion to `uint8_t` is `% UINT8_MOD`. -/
def UINT8_MOD : Nat := 256

/-! ## `enum class Category : uint8_t` -/

/-- The enumeration `Category`. Its underlying type is `uint8_t`, so an object of
the type can hold a value that has no enumerator; of those only `0b11` can come
out of the two-bit mask in `category()`, and it is `UNNAMED` here. -/
inductive Category where
  | SMALL
  | MEDIUM
  | LARGE
  | UNNAMED
  deriving DecidableEq, Repr

/-- The underlying value of a category: `static_cast<uint8_t>(cat)`. -/
def Category.val : Category → Nat
  | .SMALL => 0b00
  | .MEDIUM => 0b01
  | .LARGE => 0b10
  | .UNNAMED => 0b11

/-- The initialisation `Category cat{cat_num}` for a two-bit `cat_num`. -/
def Category.ofBits (cat_num : Nat) : Category :=
  if cat_num = 0b00 then .SMALL
  else if cat_num = 0b01 then .MEDIUM
  else if cat_num = 0b10 then .LARGE
  else .UNNAMED

/-! ## Object representation of the 8-byte fields -/

/-- Position, inside an 8-byte field, of the byte of significance `k`
(`k = 0` is the least significant byte). -/
def byte_of_significance (le : Bool) (k : Nat) : Nat :=
  if le then k else sizeof_size_t - 1 - k

/-- Value of the 8-byte unsigned field stored at offset `off`. -/
def load_field (le : Bool) (bytes : Nat → Nat) (off : Nat) : Nat :=
  ((List.range sizeof_size_t).map
    (fun k => bytes (off + byte_of_significance le k) * UINT8_MOD ^ k)).sum

/-- Assignment of `v`, converted to `size_t`, to the 8-byte field at offset `off`. -/
def store_field (le : Bool) (bytes : Nat → Nat) (off v : Nat) : Nat → Nat :=
  fun i =>
    if off ≤ i ∧ i < off + sizeof_size_t then
      (v % SIZE_MOD) / UINT8_MOD ^ (byte_of_significance le (i - off)) % UINT8_MOD
    else bytes i

/-! ## The source sequence and the C library -/

/-- The code units in memory at a pointer to the NUL-terminated sequence `S`. -/
def c_str (S : List Nat) : List Nat := S ++ [0]

/-- The units before the first NUL of the sequence at `data`. -/
def until_nul (data : List Nat) : List Nat := data.takeWhile (fun c => c != 0)

/-- The function `Traits::length(data)` (`std::char_traits<char>::length`): the
number of units before the first NUL, as a `size_t`. -/
def Traits.length (data : List Nat) : Nat := (until_nul data).length % SIZE_MOD

/-- The call `strcpy(dst, data)`: the units of `data` up to and including the
first NUL are written to `dst[0]`, `dst[1]`, ...; the rest of `dst` is kept. -/
def strcpy (dst : Nat → Nat) (data : List Nat) : Nat → Nat :=
  fun i => if i < (until_nul data).length then (until_nul data).getD i 0
    else if i = (until_nul data).length then 0
    else dst i

/-! ## The free store and `std::allocator<char>` -/

/-- A call made to the allocator, with its arguments (for `allocate`, the pointer
is the one returned). -/
inductive AllocCall where
  | allocate (p n : Nat)
  | deallocate (p n : Nat)
  deriving DecidableEq, Repr

/-- A live allocation: its address, the count given to `allocate`, its units. -/
structure Cell where
  base : Nat
  count : Nat
  units : Nat → Nat

/-- The free store: the next address the allocator hands out, the outstanding
allocations (most recent first) and the calls made so far. -/
structure Heap where
  brk : Nat
  cells : List Cell
  calls : List AllocCall

/-- The most recent outstanding allocation at address `p`. -/
def find_cell (p : Nat) : List Cell → Option Cell
  | [] => none
  | c :: cs => if c.base = p then some c else find_cell p cs

/-- The outstanding allocations without the most recent one at address `p`. -/
def erase_cell (p : Nat) : List Cell → List Cell
  | [] => []
  | c :: cs => if c.base = p then cs else c :: erase_cell p cs

/-- The outstanding allocations with `f` applied to the units of the most recent
one at address `p`. -/
def update_cell (p : Nat) (f : (Nat → Nat) → (Nat → Nat)) : List Cell → List Cell
  | [] => []
  | c :: cs => if c.base = p then { c with units := f c.units } :: cs
    else c :: update_cell p f cs

/-- The call `alloc.allocate(n)`: a fresh allocation of `n` units at the next
address of the 64-bit address space; returns that address. -/
def Allocator.allocate (h : Heap) (n : Nat) : Nat × Heap :=
  let p := h.brk % SIZE_MOD
  (p, { brk := p + n
        cells := { base := p, count := n, units := fun _ => 0 } :: h.cells
        calls := h.calls ++ [AllocCall.allocate p n] })

/-- The call `alloc.deallocate(p, n)`: the allocation at `p` is no longer
outstanding; the count `n` it was given is recorded with the call. -/
def Allocator.deallocate (h : Heap) (p n : Nat) : Heap :=
  { h with cells := erase_cell p h.cells
           calls := h.calls ++ [AllocCall.deallocate p n] }

/-- The call `std::destroy_n(p, n)` for `char`, whose destructor is trivial. -/
def destroy_n (h : Heap) (_p _n : Nat) : Heap := h

/-- The call `strcpy(p, data)` for a pointer `p` into the free store. -/
def Heap.strcpy (h : Heap) (p : Nat) (data : List Nat) : Heap :=
  { h with cells := update_cell p (fun u => ss.strcpy u data) h.cells }

/-- The NUL-terminated sequence read at pointer `p` by `os << p`: the units of
the allocation at `p` before its first NUL. -/
def Heap.c_string (h : Heap) (p : Nat) : List Nat :=
  match find_cell p h.cells with
  | some c => until_nul ((List.range c.count).map c.units)
  | none => []

/-! ## `class String` -/

/-- The struct `Medium` (and, field for field, the struct `Large`). -/
structure Medium where
  data_ : Nat
  size_ : Nat
  capacity_ : Nat
  deriving DecidableEq, Repr

/-- The struct `Large`, declared with the same three fields as `Medium`. -/
abbrev Large := Medium

/-- An object of class `String`: the bytes of its anonymous union. The member
`alloc` is a `std::allocator`, which has no state. -/
structure String where
  bytes_ : Nat → Nat

/-- The constant `last_byte_pos`:
`IS_LITTLE_ENDIAN ? sizeof(bytes_) - sizeof(size_t) : sizeof(bytes_) - 1`. -/
def last_byte_pos (le : Bool) : Nat :=
  if le then sizeof_bytes_ - sizeof_size_t else sizeof_bytes_ - 1

/-- The union member `small_`, an array of `sizeof(Medium) / sizeof(CharT)` units. -/
def String.small_ (s : String) (i : Nat) : Nat := s.bytes_ (i * sizeof_CharT)

/-- Offset of the member `data_` in `Medium` and `Large`. -/
def offsetof_data_ : Nat := 0

/-- Offset of the member `size_` in `Medium` and `Large`. -/
def offsetof_size_ : Nat := sizeof_size_t

/-- Offset of the member `capacity_` in `Medium` and `Large`. -/
def offsetof_capacity_ : Nat := 2 * sizeof_size_t

/-- The union member `medium_`, read. -/
def String.medium_ (le : Bool) (s : String) : Medium :=
  { data_ := load_field le s.bytes_ offsetof_data_
    size_ := load_field le s.bytes_ offsetof_size_
    capacity_ := load_field le s.bytes_ offsetof_capacity_ }

/-- The union member `large_`, read. -/
def String.large_ (le : Bool) (s : String) : Large :=
  { data_ := load_field le s.bytes_ offsetof_data_
    size_ := load_field le s.bytes_ offsetof_size_
    capacity_ := load_field le s.bytes_ offsetof_capacity_ }

/-- Assignment to `medium_.data_` or `large_.data_`. -/
def String.assign_data_ (le : Bool) (s : String) (v : Nat) : String :=
  { bytes_ := store_field le s.bytes_ offsetof_data_ v }

/-- Assignment to `medium_.size_` or `large_.size_`. -/
def String.assign_size_ (le : Bool) (s : String) (v : Nat) : String :=
  { bytes_ := store_field le s.bytes_ offsetof_size_ v }

/-- Assignment to `medium_.capacity_` or `large_.capacity_`. -/
def String.assign_capacity_ (le : Bool) (s : String) (v : Nat) : String :=
  { bytes_ := store_field le s.bytes_ offsetof_capacity_ v }

/-- Assignment `bytes_[pos] = v`, with `v` converted to `uint8_t`. -/
def String.assign_byte (s : String) (pos v : Nat) : String :=
  { bytes_ := fun i => if i = pos then v % UINT8_MOD else s.bytes_ i }

/-- The member function `category()`. -/
def String.category (le : Bool) (s : String) : Category :=
  let cat_num := s.bytes_ (last_byte_pos le) &&& 3
  Category.ofBits cat_num

/-- The member function `size()`. The local `size` is assigned in each of the
three cases of the switch; for a category without a case the result is the
indeterminate initial value, `none`. -/
def String.size (le : Bool) (s : String) : Option Nat :=
  match s.category le with
  | .SMALL => some (s.bytes_ (last_byte_pos le) >>> 2)
  | .MEDIUM => some (s.medium_ le).size_
  | .LARGE => some (s.large_ le).size_
  | .UNNAMED => none

/-- The member function `capacity()`, with the same convention as `size`. -/
def String.capacity (le : Bool) (s : String) : Option Nat :=
  match s.category le with
  | .SMALL => some (sizeof_Medium / sizeof_CharT)
  | .MEDIUM => some ((s.medium_ le).capacity_ >>> 2)
  | .LARGE => some ((s.large_ le).capacity_ >>> 2)
  | .UNNAMED => none

/-- The member function `set_small_size(size)`. -/
def String.set_small_size (le : Bool) (s : String) (size : Nat) : String :=
  s.assign_byte (last_byte_pos le) (((size % UINT8_MOD) <<< 2) ||| Category.SMALL.val)

/-- The member function `init_small(data, size)`. -/
def String.init_small (le : Bool) (s : String) (data : List Nat) (size : Nat) : String :=
  let s1 : String := { bytes_ := strcpy s.bytes_ data }
  s1.set_small_size le size

/-- The member function `set_capacity(cat, cap)`; the parameter `cap` has type
`uint8_t`, so the argument is converted on entry. -/
def String.set_capacity (le : Bool) (s : String) (cat : Category) (cap : Nat) : String :=
  let cap := cap % UINT8_MOD
  match cat with
  | .SMALL => s
  | .MEDIUM => s.assign_capacity_ le ((cap <<< 2) ||| Category.MEDIUM.val)
  | .LARGE =>
    let s1 := s.assign_capacity_ le cap
    s1.assign_capacity_ le ((cap <<< 2) ||| Category.LARGE.val)
  | .UNNAMED => s

/-- The member function `init_medium(data, size)`. -/
def String.init_medium (le : Bool) (s : String) (h : Heap) (data : List Nat) (size : Nat) :
    String × Heap :=
  let r := Allocator.allocate h ((size + 1) % SIZE_MOD)
  let s1 := s.assign_data_ le r.1
  let h2 := r.2.strcpy (s1.medium_ le).data_ data
  let s2 := s1.assign_size_ le size
  (s2.set_capacity le Category.MEDIUM size, h2)

/-- The member function `init_large(data, size)`; it assigns the length through
`medium_.size_`, the same bytes as `large_.size_`. -/
def String.init_large (le : Bool) (s : String) (h : Heap) (data : List Nat) (size : Nat) :
    String × Heap :=
  let r := Allocator.allocate h ((size + 1) % SIZE_MOD)
  let s1 := s.assign_data_ le r.1
  let h2 := r.2.strcpy (s1.large_ le).data_ data
  let s2 := s1.assign_size_ le size
  (s2.set_capacity le Category.LARGE size, h2)

/-- The constructor `String(const CharT *data)`, run on the storage `self`. -/
def String.ctor (le : Bool) (self : String) (h : Heap) (data : List Nat) : String × Heap :=
  let size := Traits.length data
  if size ≤ 23 then (self.init_small le data size, h)
  else if size ≤ 25 then self.init_medium le h data size
  else self.init_large le h data size

/-- The member function `destroy_medium()`. -/
def String.destroy_medium (le : Bool) (s : String) (h : Heap) : Heap :=
  let h1 := destroy_n h (s.medium_ le).data_ (s.medium_ le).capacity_
  Allocator.deallocate h1 (s.medium_ le).data_ (s.medium_ le).capacity_

/-- The member function `destroy_large()`. -/
def String.destroy_large (le : Bool) (s : String) (h : Heap) : Heap :=
  let h1 := destroy_n h (s.large_ le).data_ (s.large_ le).capacity_
  Allocator.deallocate h1 (s.large_ le).data_ (s.large_ le).capacity_

/-- The destructor `~String()`. -/
def String.dtor (le : Bool) (s : String) (h : Heap) : Heap :=
  match s.category le with
  | .SMALL => h
  | .MEDIUM => s.destroy_medium le h
  | .LARGE => s.destroy_large le h
  | .UNNAMED => h

/-- The call `os.write(p, n)` for a pointer `p` into the object: `n` units. -/
def ostream_write (os : List Nat) (p : Nat → Nat) (n : Nat) : List Nat :=
  os ++ (List.range n).map p

/-- The friend `operator<<(os, s)`; the result is the stream after the call. -/
def String.operator_lshift (le : Bool) (os : List Nat) (s : String) (h : Heap) : List Nat :=
  match s.category le with
  | .SMALL =>
    let size := (s.bytes_ (last_byte_pos le) >>> 2) % UINT8_MOD
    ostream_write os s.small_ size
  | .MEDIUM => os ++ h.c_string (s.medium_ le).data_
  | .LARGE => os ++ h.c_string (s.large_ le).data_
  | .UNNAMED => os

/-! ## Inputs used in the statements -/

/-- Storage whose previous contents are all zero. -/
def zeroed : String := { bytes_ := fun _ => 0 }

/-- A free store with nothing allocated, handing out addresses from `4096`. -/
def Heap.fresh : Heap := { brk := 4096, cells := [], calls := [] }

/-- A sequence without an embedded NUL. -/
def NulFree (S : List Nat) : Prop := ∀ c ∈ S, c ≠ 0

instance (S : List Nat) : Decidable (NulFree S) := List.decidableBAll _ S

/-- The descriptor left by the two heap paths in storage `s`: the pointer `p`,
the length `size` and the capacity tagged with `cat`, assigned in that order. -/
def heap_descriptor (le : Bool) (s : String) (p size : Nat) (cat : Category) : String :=
  ((s.assign_data_ le p).assign_size_ le size).set_capacity le cat size

/-- The free store after a heap path: one more allocation, holding the copy. -/
def heap_after_init (h : Heap) (data : List Nat) (size : Nat) : Heap :=
  { brk := h.brk % SIZE_MOD + (size + 1) % SIZE_MOD
    cells := { base := h.brk % SIZE_MOD, count := (size + 1) % SIZE_MOD,
               units := strcpy (fun _ => 0) data } :: h.cells
    calls := h.calls ++ [AllocCall.allocate (h.brk % SIZE_MOD) ((size + 1) % SIZE_MOD)] }

/-- A string of `n` letters `a`. -/
def letters (n : Nat) : List Nat := List.replicate n 97

/-- Strings constructed and destroyed one after the other on the free store `h`:
each element gives the previous contents of the storage and the source sequence. -/
def construct_destroy (le : Bool) (h : Heap) : List (String × List Nat) → Heap
  | [] => h
  | x :: xs =>
    construct_destroy le
      (String.dtor le (String.ctor le x.1 h (c_str x.2)).1 (String.ctor le x.1 h (c_str x.2)).2)
      xs

/-- A block whose bytes at offsets 16 and 23 are 122 and whose other bytes are 0:
the low byte of its capacity field is 122 in either byte order. -/
def sample_descriptor : String := { bytes_ := fun i => if i = 16 ∨ i = 23 then 122 else 0 }

/-- The first `n` capital letters in order, from `A` (code 65). -/
def capitals (n : Nat) : List Nat := (List.range n).map (fun i => i + 65)

/-! ## The layout of an 8-byte field -/

theorem SIZE_MOD_eq : SIZE_MOD = 18446744073709551616 := by
  norm_num [SIZE_MOD, sizeof_size_t]

theorem byte_sum_eq (v : Nat) :
    v / 1 % 256 + v / 256 % 256 * 256 + v / 256 ^ 2 % 256 * 256 ^ 2
      + v / 256 ^ 3 % 256 * 256 ^ 3 + v / 256 ^ 4 % 256 * 256 ^ 4
      + v / 256 ^ 5 % 256 * 256 ^ 5 + v / 256 ^ 6 % 256 * 256 ^ 6
      + v / 256 ^ 7 % 256 * 256 ^ 7 = v % 2 ^ 64 := by
  norm_num
  omega

/-- Reading a field back gives the value assigned, as a `size_t`. -/
theorem load_store_same (le : Bool) (b : Nat → Nat) (off v : Nat) :
    load_field le (store_field le b off v) off = v % SIZE_MOD := by
  have key := byte_sum_eq (v % SIZE_MOD)
  cases le <;>
    simp [load_field, store_field, byte_of_significance, sizeof_size_t, UINT8_MOD,
      List.range_succ, SIZE_MOD] at key ⊢ <;> omega

/-- An assignment to a field leaves the bytes outside the field alone. -/
theorem store_field_outside (le : Bool) (b : Nat → Nat) (off v i : Nat)
    (hi : i < off ∨ off + sizeof_size_t ≤ i) : store_field le b off v i = b i := by
  unfold store_field
  rw [if_neg]
  omega

/-- The value of a field depends on its eight bytes only. -/
theorem load_field_congr (le : Bool) (b c : Nat → Nat) (off : Nat)
    (hbc : ∀ i, off ≤ i → i < off + sizeof_size_t → b i = c i) :
    load_field le b off = load_field le c off := by
  unfold load_field
  congr 1
  apply List.map_congr_left
  intro k hk
  have hk8 : k < sizeof_size_t := List.mem_range.mp hk
  rw [hbc]
  · omega
  · unfold byte_of_significance; split <;> omega

/-- An assignment to a field leaves a disjoint field alone. -/
theorem load_store_other (le : Bool) (b : Nat → Nat) (off off2 v : Nat)
    (hd : off2 + sizeof_size_t ≤ off ∨ off + sizeof_size_t ≤ off2) :
    load_field le (store_field le b off v) off2 = load_field le b off2 := by
  apply load_field_congr
  intro i h1 h2
  apply store_field_outside
  omega

/-- After an assignment to `capacity_`, the byte at `last_byte_pos` is the low
byte of the value assigned, in both byte orders. -/
theorem store_capacity_low_byte (le : Bool) (b : Nat → Nat) (v : Nat) :
    store_field le b offsetof_capacity_ v (last_byte_pos le) = v % UINT8_MOD := by
  cases le <;>
    simp [store_field, last_byte_pos, offsetof_capacity_, byte_of_significance,
      sizeof_bytes_, sizeof_Medium, sizeof_size_t, UINT8_MOD, SIZE_MOD] <;> omega

/-! ## Bit operations -/

theorem tag_or (c t : Nat) (ht : t < 4) : (c <<< 2) ||| t = 4 * c + t := by
  rw [Nat.shiftLeft_eq, Nat.mul_comm]
  exact (Nat.mul_add_lt_is_or (i := 2) ht c).symm

theorem and_three (x : Nat) : x &&& 3 = x % 4 := Nat.and_pow_two_sub_one_eq_mod x 2

theorem shiftRight_two (x : Nat) : x >>> 2 = x / 4 := Nat.shiftRight_eq_div_pow x 2

/-! ## The source sequence -/

theorem until_nul_c_str (S : List Nat) (hS : NulFree S) : until_nul (c_str S) = S := by
  unfold until_nul c_str
  rw [List.takeWhile_append_of_pos]
  · simp
  · intro a ha; simpa using hS a ha

theorem length_c_str (S : List Nat) (hS : NulFree S) (hL : S.length < SIZE_MOD) :
    Traits.length (c_str S) = S.length := by
  unfold Traits.length
  rw [until_nul_c_str S hS, Nat.mod_eq_of_lt hL]

/-! ## The path taken by the constructor -/

theorem ctor_small (le : Bool) (self : String) (h : Heap) (S : List Nat)
    (hS : NulFree S) (hL : S.length ≤ 23) :
    String.ctor le self h (c_str S) = (self.init_small le (c_str S) S.length, h) := by
  have hlen := length_c_str S hS (by rw [SIZE_MOD_eq]; omega)
  simp only [String.ctor, hlen, if_pos hL]

theorem ctor_medium (le : Bool) (self : String) (h : Heap) (S : List Nat)
    (hS : NulFree S) (h24 : 24 ≤ S.length) (h25 : S.length ≤ 25) :
    String.ctor le self h (c_str S) =
      (heap_descriptor le self (h.brk % SIZE_MOD) S.length Category.MEDIUM,
        heap_after_init h (c_str S) S.length) := by
  have hlen := length_c_str S hS (by rw [SIZE_MOD_eq]; omega)
  have h23 : ¬ S.length ≤ 23 := by omega
  simp only [String.ctor, hlen, if_neg h23, if_pos h25]
  simp [String.init_medium, heap_descriptor, heap_after_init, Allocator.allocate,
    Heap.strcpy, update_cell, String.medium_, String.assign_data_, load_store_same]

theorem ctor_large (le : Bool) (self : String) (h : Heap) (S : List Nat)
    (hS : NulFree S) (h26 : 26 ≤ S.length) (hL : S.length < SIZE_MOD) :
    String.ctor le self h (c_str S) =
      (heap_descriptor le self (h.brk % SIZE_MOD) S.length Category.LARGE,
        heap_after_init h (c_str S) S.length) := by
  have hlen := length_c_str S hS hL
  have h23 : ¬ S.length ≤ 23 := by omega
  have h25 : ¬ S.length ≤ 25 := by omega
  simp only [String.ctor, hlen, if_neg h23, if_neg h25]
  simp [String.init_large, heap_descriptor, heap_after_init, Allocator.allocate,
    Heap.strcpy, update_cell, String.large_, String.assign_data_, load_store_same]

/-! ## The bytes left by each path -/

theorem init_small_bytes (le : Bool) (s : String) (data : List Nat) (size i : Nat) :
    (s.init_small le data size).bytes_ i =
      if i = last_byte_pos le then 4 * (size % UINT8_MOD) % UINT8_MOD
      else strcpy s.bytes_ data i := by
  simp only [String.init_small, String.set_small_size, String.assign_byte, Category.val,
    Nat.or_zero, Nat.shiftLeft_eq]
  split <;> simp [Nat.mul_comm]

theorem heap_descriptor_capacity_ (le : Bool) (s : String) (p size : Nat) (cat : Category)
    (hcat : cat = .MEDIUM ∨ cat = .LARGE) :
    load_field le (heap_descriptor le s p size cat).bytes_ offsetof_capacity_ =
      4 * (size % UINT8_MOD) + cat.val := by
  have hlt : 4 * (size % UINT8_MOD) + cat.val < SIZE_MOD := by
    have : size % UINT8_MOD < 256 := Nat.mod_lt _ (by decide)
    rw [SIZE_MOD_eq]
    rcases hcat with h | h <;> subst h <;> simp only [Category.val] <;> omega
  rcases hcat with h | h <;> subst h <;>
    simp only [heap_descriptor, String.set_capacity, String.assign_capacity_, load_store_same] <;>
    rw [tag_or _ _ (by decide)] <;> exact Nat.mod_eq_of_lt hlt

theorem heap_descriptor_size_ (le : Bool) (s : String) (p size : Nat) (cat : Category) :
    load_field le (heap_descriptor le s p size cat).bytes_ offsetof_size_ = size % SIZE_MOD := by
  cases cat <;>
    simp [heap_descriptor, String.set_capacity, String.assign_capacity_, String.assign_size_,
      load_store_same, load_store_other, offsetof_capacity_, offsetof_size_, sizeof_size_t]

theorem heap_descriptor_data_ (le : Bool) (s : String) (p size : Nat) (cat : Category) :
    load_field le (heap_descriptor le s p size cat).bytes_ offsetof_data_ = p % SIZE_MOD := by
  cases cat <;>
    simp [heap_descriptor, String.set_capacity, String.assign_capacity_, String.assign_size_,
      String.assign_data_, load_store_same, load_store_other, offsetof_capacity_,
      offsetof_size_, offsetof_data_, sizeof_size_t]

theorem heap_descriptor_last_byte (le : Bool) (s : String) (p size : Nat) (cat : Category)
    (hcat : cat = .MEDIUM ∨ cat = .LARGE) :
    (heap_descriptor le s p size cat).bytes_ (last_byte_pos le) =
      (4 * (size % UINT8_MOD) + cat.val) % UINT8_MOD := by
  rcases hcat with h | h <;> subst h <;>
    simp only [heap_descriptor, String.set_capacity, String.assign_capacity_,
      store_capacity_low_byte] <;>
    rw [tag_or _ _ (by decide)]

/-- The category read from a block whose discriminator byte is `4 * c + t`. -/
theorem category_of_last_byte (le : Bool) (s : String) (c : Nat) (cat : Category)
    (hb : s.bytes_ (last_byte_pos le) = (4 * c + cat.val) % UINT8_MOD) :
    s.category le = cat := by
  have hv : (4 * c + cat.val) % UINT8_MOD % 4 = cat.val := by
    cases cat <;> simp only [Category.val, UINT8_MOD] <;> omega
  simp only [String.category, hb, and_three, hv]
  cases cat <;> rfl

theorem init_small_category (le : Bool) (s : String) (data : List Nat) (size : Nat) :
    (s.init_small le data size).category le = Category.SMALL := by
  apply category_of_last_byte le _ (size % UINT8_MOD)
  rw [init_small_bytes, if_pos rfl]
  rfl

theorem heap_descriptor_category (le : Bool) (s : String) (p size : Nat) (cat : Category)
    (hcat : cat = .MEDIUM ∨ cat = .LARGE) :
    (heap_descriptor le s p size cat).category le = cat :=
  category_of_last_byte le _ (size % UINT8_MOD) cat
    (heap_descriptor_last_byte le s p size cat hcat)

theorem letters_length (n : Nat) : (letters n).length = n := List.length_replicate n 97

theorem letters_nulFree (n : Nat) : NulFree (letters n) := by
  intro c hc
  rw [List.eq_of_mem_replicate hc]
  decide

/-! ## The category and the size after each path -/

theorem category_ctor_small (le : Bool) (self : String) (h : Heap) (S : List Nat)
    (hS : NulFree S) (h23 : S.length ≤ 23) :
    (String.ctor le self h (c_str S)).1.category le = Category.SMALL := by
  rw [ctor_small le self h S hS h23]
  exact init_small_category le self _ _

theorem category_ctor_medium (le : Bool) (self : String) (h : Heap) (S : List Nat)
    (hS : NulFree S) (h24 : 24 ≤ S.length) (h25 : S.length ≤ 25) :
    (String.ctor le self h (c_str S)).1.category le = Category.MEDIUM := by
  rw [ctor_medium le self h S hS h24 h25]
  exact heap_descriptor_category le self _ _ _ (Or.inl rfl)

theorem category_ctor_large (le : Bool) (self : String) (h : Heap) (S : List Nat)
    (hS : NulFree S) (h26 : 26 ≤ S.length) (hL : S.length < SIZE_MOD) :
    (String.ctor le self h (c_str S)).1.category le = Category.LARGE := by
  rw [ctor_large le self h S hS h26 hL]
  exact heap_descriptor_category le self _ _ _ (Or.inr rfl)

/-- The discriminator byte after the inline path, shifted right by 2. -/
theorem last_byte_ctor_small (le : Bool) (self : String) (h : Heap) (S : List Nat)
    (hS : NulFree S) (h23 : S.length ≤ 23) :
    (String.ctor le self h (c_str S)).1.bytes_ (last_byte_pos le) >>> 2 = S.length := by
  rw [ctor_small le self h S hS h23]
  simp only [init_small_bytes, if_pos, shiftRight_two, UINT8_MOD]
  omega

/-- The length field after a heap path. -/
theorem size_field_ctor_heap (le : Bool) (self : String) (h : Heap) (S : List Nat)
    (hS : NulFree S) (h23 : 23 < S.length) (hL : S.length < SIZE_MOD) :
    load_field le (String.ctor le self h (c_str S)).1.bytes_ offsetof_size_ = S.length := by
  by_cases h25 : S.length ≤ 25
  · rw [ctor_medium le self h S hS (by omega) h25, heap_descriptor_size_,
      Nat.mod_eq_of_lt hL]
  · rw [ctor_large le self h S hS (by omega) hL, heap_descriptor_size_,
      Nat.mod_eq_of_lt hL]

theorem size_ctor (le : Bool) (self : String) (h : Heap) (S : List Nat)
    (hS : NulFree S) (hL : S.length < SIZE_MOD) :
    (String.ctor le self h (c_str S)).1.size le = some S.length := by
  by_cases h23 : S.length ≤ 23
  · simp only [String.size, category_ctor_small le self h S hS h23,
      last_byte_ctor_small le self h S hS h23]
  · by_cases h25 : S.length ≤ 25
    · simp only [String.size, category_ctor_medium le self h S hS (by omega) h25,
        String.medium_, size_field_ctor_heap le self h S hS (by omega) hL]
    · simp only [String.size, category_ctor_large le self h S hS (by omega) hL,
        String.large_, size_field_ctor_heap le self h S hS (by omega) hL]

/-! ## C1: the category selected by the length -/

/-- C1: for every NUL-terminated source sequence `S` of length `L`, in either
byte order and whatever the storage held before, the constructed `String`
reports `category() = SMALL` when `L ≤ 23`, `MEDIUM` when `24 ≤ L ≤ 25` and
`LARGE` when `L ≥ 26`; the value `0b11`, which has no enumerator, is never read
back. -/
theorem ctor_category (le : Bool) (self : String) (h : Heap) (S : List Nat)
    (hS : NulFree S) (hL : S.length < SIZE_MOD) :
    (S.length ≤ 23 → (String.ctor le self h (c_str S)).1.category le = Category.SMALL) ∧
    (24 ≤ S.length ∧ S.length ≤ 25 →
      (String.ctor le self h (c_str S)).1.category le = Category.MEDIUM) ∧
    (26 ≤ S.length → (String.ctor le self h (c_str S)).1.category le = Category.LARGE) ∧
    (String.ctor le self h (c_str S)).1.category le ≠ Category.UNNAMED := by
  refine ⟨category_ctor_small le self h S hS,
    fun hm => category_ctor_medium le self h S hS hm.1 hm.2,
    fun h26 => category_ctor_large le self h S hS h26 hL, ?_⟩
  by_cases h23 : S.length ≤ 23
  · rw [category_ctor_small le self h S hS h23]; decide
  · by_cases h25 : S.length ≤ 25
    · rw [category_ctor_medium le self h S hS (by omega) h25]; decide
    · rw [category_ctor_large le self h S hS (by omega) hL]; decide

/-- The boundary lengths 23, 24, 25 and 26 on the little-endian layout give
`SMALL`, `MEDIUM`, `MEDIUM` and `LARGE`. -/
theorem ctor_category_witness :
    (String.ctor true zeroed Heap.fresh (c_str (letters 23))).1.category true = Category.SMALL ∧
    (String.ctor true zeroed Heap.fresh (c_str (letters 24))).1.category true = Category.MEDIUM ∧
    (String.ctor true zeroed Heap.fresh (c_str (letters 25))).1.category true = Category.MEDIUM ∧
    (String.ctor true zeroed Heap.fresh (c_str (letters 26))).1.category true = Category.LARGE :=
  ⟨(ctor_category true zeroed Heap.fresh (letters 23) (by decide) (by decide)).1 (by decide),
   (ctor_category true zeroed Heap.fresh (letters 24) (by decide) (by decide)).2.1 (by decide),
   (ctor_category true zeroed Heap.fresh (letters 25) (by decide) (by decide)).2.1 (by decide),
   (ctor_category true zeroed Heap.fresh (letters 26) (by decide) (by decide)).2.2.1 (by decide)⟩

/-! ## C2: `size()` is the length of the source -/

/-- C2: for every NUL-terminated source sequence `S` of length `L`, in either
byte order, the constructed `String` has `size() = L`. On the inline path that
is the discriminator byte shifted right by 2; on the two heap paths it is the
length field, the same bytes whether read as `medium_.size_` or as
`large_.size_`. -/
theorem ctor_size (le : Bool) (self : String) (h : Heap) (S : List Nat)
    (hS : NulFree S) (hL : S.length < SIZE_MOD) :
    (String.ctor le self h (c_str S)).1.size le = some S.length ∧
    (S.length ≤ 23 →
      (String.ctor le self h (c_str S)).1.bytes_ (last_byte_pos le) >>> 2 = S.length) ∧
    (23 < S.length →
      ((String.ctor le self h (c_str S)).1.medium_ le).size_ = S.length ∧
      ((String.ctor le self h (c_str S)).1.large_ le).size_ = S.length) :=
  ⟨size_ctor le self h S hS hL, last_byte_ctor_small le self h S hS,
    fun h23 => ⟨size_field_ctor_heap le self h S hS h23 hL,
      size_field_ctor_heap le self h S hS h23 hL⟩⟩

/-- A source of 1000 units on the little-endian layout has `size() = 1000`. -/
theorem ctor_size_witness :
    (String.ctor true zeroed Heap.fresh (c_str (letters 1000))).1.size true = some 1000 := by
  have hw := (ctor_size true zeroed Heap.fresh (letters 1000)
    (letters_nulFree 1000) (by rw [letters_length, SIZE_MOD_eq]; omega)).1
  rw [letters_length] at hw
  exact hw

/-! ## The units a constructed string holds -/

theorem strcpy_c_str_lt (d : Nat → Nat) (S : List Nat) (hS : NulFree S) (i : Nat)
    (hi : i < S.length) : strcpy d (c_str S) i = S.getD i 0 := by
  simp only [strcpy, until_nul_c_str S hS, if_pos hi]

theorem strcpy_c_str_eq (d : Nat → Nat) (S : List Nat) (hS : NulFree S) :
    strcpy d (c_str S) S.length = 0 := by
  simp only [strcpy, until_nul_c_str S hS, lt_irrefl, if_false, if_true]

theorem strcpy_c_str_gt (d : Nat → Nat) (S : List Nat) (hS : NulFree S) (i : Nat)
    (hi : S.length < i) : strcpy d (c_str S) i = d i := by
  have h1 : ¬ i < S.length := by omega
  have h2 : ¬ i = S.length := by omega
  simp only [strcpy, until_nul_c_str S hS, if_neg h1, if_neg h2]

/-- The units of an allocation of `L + 1` units after `strcpy` of a sequence of
length `L` are the sequence and its NUL. -/
theorem map_strcpy_c_str (d : Nat → Nat) (S : List Nat) (hS : NulFree S) :
    (List.range (S.length + 1)).map (strcpy d (c_str S)) = c_str S := by
  apply List.ext_getElem
  · simp [c_str]
  · intro i h1 h2
    rw [List.getElem_map, List.getElem_range]
    by_cases hi : i < S.length
    · rw [strcpy_c_str_lt d S hS i hi]
      simp [c_str, List.getElem_append_left, hi, List.getD_eq_getElem]
    · have hiL : i = S.length := by simp at h1; omega
      subst hiL
      rw [strcpy_c_str_eq d S hS]
      simp [c_str]

/-- What `os << p` reads at the pointer a heap path stored. -/
theorem c_string_heap_after_init (h : Heap) (S : List Nat) (hS : NulFree S)
    (hL : S.length + 1 < SIZE_MOD) :
    (heap_after_init h (c_str S) S.length).c_string (h.brk % SIZE_MOD) = S := by
  simp only [Heap.c_string, heap_after_init, find_cell, if_true, Nat.mod_eq_of_lt hL,
    map_strcpy_c_str _ S hS, until_nul_c_str S hS]

/-- What `operator<<` writes for a string built on the inline path: `L` units,
the unit at `last_byte_pos` being the discriminator byte. -/
theorem operator_lshift_small (le : Bool) (os : List Nat) (self : String) (h : Heap)
    (S : List Nat) (hS : NulFree S) (hL : S.length ≤ 23) :
    String.operator_lshift le os (String.ctor le self h (c_str S)).1
        (String.ctor le self h (c_str S)).2 =
      os ++ (List.range S.length).map
        (fun i => if i = last_byte_pos le then 4 * S.length else S.getD i 0) := by
  rw [ctor_small le self h S hS hL]
  have hsz : (self.init_small le (c_str S) S.length).bytes_ (last_byte_pos le) >>> 2
      % UINT8_MOD = S.length := by
    simp only [init_small_bytes, if_pos, shiftRight_two, UINT8_MOD]
    omega
  simp only [String.operator_lshift, init_small_category, ostream_write, hsz]
  congr 1
  apply List.map_congr_left
  intro i hi
  have hi2 : i < S.length := List.mem_range.mp hi
  simp only [String.small_, sizeof_CharT, Nat.mul_one, init_small_bytes]
  split
  · simp only [UINT8_MOD]; omega
  · exact strcpy_c_str_lt _ S hS i hi2

/-- What `operator<<` writes for a string built on a heap path: the sequence. -/
theorem operator_lshift_heap (le : Bool) (os : List Nat) (self : String) (h : Heap)
    (S : List Nat) (hS : NulFree S) (h23 : 23 < S.length) (hL : S.length + 1 < SIZE_MOD) :
    String.operator_lshift le os (String.ctor le self h (c_str S)).1
        (String.ctor le self h (c_str S)).2 = os ++ S := by
  by_cases h25 : S.length ≤ 25
  · rw [ctor_medium le self h S hS (by omega) h25]
    simp only [String.operator_lshift, heap_descriptor_category le self _ _ _ (Or.inl rfl),
      String.medium_, heap_descriptor_data_, Nat.mod_mod, c_string_heap_after_init h S hS hL]
  · rw [ctor_large le self h S hS (by omega) (by omega)]
    simp only [String.operator_lshift, heap_descriptor_category le self _ _ _ (Or.inr rfl),
      String.large_, heap_descriptor_data_, Nat.mod_mod, c_string_heap_after_init h S hS hL]

/-- Where the round trip holds: on the big-endian layout for every length, and
on the little-endian layout for the lengths up to 16 and above 23. -/
theorem round_trip_where_it_holds (le : Bool) (os : List Nat) (self : String) (h : Heap)
    (S : List Nat) (hS : NulFree S) (hL : S.length + 1 < SIZE_MOD)
    (hle : le = false ∨ S.length ≤ 16 ∨ 23 < S.length) :
    String.operator_lshift le os (String.ctor le self h (c_str S)).1
        (String.ctor le self h (c_str S)).2 = os ++ S := by
  by_cases h23 : 23 < S.length
  · exact operator_lshift_heap le os self h S hS h23 hL
  · rw [operator_lshift_small le os self h S hS (by omega)]
    congr 1
    apply List.ext_getElem
    · simp
    · intro i h1 h2
      have hne : i ≠ last_byte_pos le := by
        rcases hle with hf | h16 | hh
        · subst hf
          simp [last_byte_pos, sizeof_bytes_, sizeof_Medium, sizeof_size_t]; omega
        · cases le <;>
            simp [last_byte_pos, sizeof_bytes_, sizeof_Medium, sizeof_size_t] <;> omega
        · omega
      simp [hne, List.getD_eq_getElem, h2]

/-! ## C3: the round trip through the output sink -/

/-- C3, at a failing input: on the little-endian layout the discriminator byte
is at offset 16, inside the inline characters, so a source of 23 letters `a`
(code 97) is written back with the unit 92, the discriminator byte `23 << 2`, at
index 16; the output differs from the source. -/
theorem operator_lshift_letters_23 :
    String.operator_lshift true [] (String.ctor true zeroed Heap.fresh (c_str (letters 23))).1
        (String.ctor true zeroed Heap.fresh (c_str (letters 23))).2 = letters 16 ++ [92] ++ letters 6 ∧
    String.operator_lshift true [] (String.ctor true zeroed Heap.fresh (c_str (letters 23))).1
        (String.ctor true zeroed Heap.fresh (c_str (letters 23))).2 ≠ letters 23 := by
  decide

/-! ## The descriptor and the free store after a heap path -/

theorem ctor_heap (le : Bool) (self : String) (h : Heap) (S : List Nat)
    (hS : NulFree S) (h23 : 23 < S.length) (hL : S.length < SIZE_MOD) :
    ∃ cat, (cat = Category.MEDIUM ∨ cat = Category.LARGE) ∧
      String.ctor le self h (c_str S) =
        (heap_descriptor le self (h.brk % SIZE_MOD) S.length cat,
          heap_after_init h (c_str S) S.length) := by
  by_cases h25 : S.length ≤ 25
  · exact ⟨Category.MEDIUM, Or.inl rfl, ctor_medium le self h S hS (by omega) h25⟩
  · exact ⟨Category.LARGE, Or.inr rfl, ctor_large le self h S hS (by omega) hL⟩

/-- The raw capacity field after a heap path: the length as a `uint8_t`, shifted
left by 2, with the tag of the category in the low bits. -/
theorem ctor_raw_capacity (le : Bool) (self : String) (h : Heap) (S : List Nat)
    (hS : NulFree S) (h23 : 23 < S.length) (hL : S.length < SIZE_MOD) :
    ((String.ctor le self h (c_str S)).1.medium_ le).capacity_ =
      4 * (S.length % UINT8_MOD) + ((String.ctor le self h (c_str S)).1.category le).val := by
  obtain ⟨cat, hcat, heq⟩ := ctor_heap le self h S hS h23 hL
  rw [heq]
  simp only [String.medium_, heap_descriptor_capacity_ le self _ _ cat hcat,
    heap_descriptor_category le self _ _ cat hcat]

theorem ctor_heap_category (le : Bool) (self : String) (h : Heap) (S : List Nat)
    (hS : NulFree S) (h23 : 23 < S.length) (hL : S.length < SIZE_MOD) :
    (String.ctor le self h (c_str S)).1.category le = Category.MEDIUM ∨
    (String.ctor le self h (c_str S)).1.category le = Category.LARGE := by
  obtain ⟨cat, hcat, heq⟩ := ctor_heap le self h S hS h23 hL
  rw [heq, heap_descriptor_category le self _ _ cat hcat]
  exact hcat

/-- The value of `capacity()` after a heap path is the raw field shifted right. -/
theorem ctor_capacity_shift (le : Bool) (self : String) (h : Heap) (S : List Nat)
    (hS : NulFree S) (h23 : 23 < S.length) (hL : S.length < SIZE_MOD) :
    (String.ctor le self h (c_str S)).1.capacity le =
      some (((String.ctor le self h (c_str S)).1.medium_ le).capacity_ >>> 2) := by
  rcases ctor_heap_category le self h S hS h23 hL with hc | hc <;>
    simp only [String.capacity, hc, String.large_, String.medium_]

/-- The value of `capacity()` after a heap path is the length as a `uint8_t`. -/
theorem ctor_capacity_heap (le : Bool) (self : String) (h : Heap) (S : List Nat)
    (hS : NulFree S) (h23 : 23 < S.length) (hL : S.length < SIZE_MOD) :
    (String.ctor le self h (c_str S)).1.capacity le = some (S.length % UINT8_MOD) := by
  rw [ctor_capacity_shift le self h S hS h23 hL, ctor_raw_capacity le self h S hS h23 hL,
    shiftRight_two]
  rcases ctor_heap_category le self h S hS h23 hL with hc | hc <;>
    simp only [hc, Category.val] <;> congr 1 <;> omega

/-! ## C4: the capacity of a heap string and its content -/

/-- C4, at a failing input: a source of 256 letters is `LARGE`, has
`size() = 256` and `capacity() = 0`, because `set_capacity` takes the capacity as
a `uint8_t`; the capacity does not cover the content. -/
theorem capacity_letters_256 :
    (String.ctor true zeroed Heap.fresh (c_str (letters 256))).1.category true
      = Category.LARGE ∧
    (String.ctor true zeroed Heap.fresh (c_str (letters 256))).1.size true = some 256 ∧
    (String.ctor true zeroed Heap.fresh (c_str (letters 256))).1.capacity true = some 0 := by
  have hn := letters_nulFree 256
  have hl : (letters 256).length < SIZE_MOD := by rw [letters_length, SIZE_MOD_eq]; omega
  have h1 := category_ctor_large true zeroed Heap.fresh (letters 256) hn
  have h2 := size_ctor true zeroed Heap.fresh (letters 256) hn hl
  have h3 := ctor_capacity_heap true zeroed Heap.fresh (letters 256) hn
  rw [letters_length] at h1 h2 h3
  exact ⟨h1 (by omega) (by rw [SIZE_MOD_eq]; omega), h2,
    h3 (by omega) (by rw [SIZE_MOD_eq]; omega)⟩

/-! ## C5: the count given to `deallocate` -/

/-- C5, at a failing input: for a source of 24 letters the constructor asks for
25 units and `capacity()` is 24, but the destructor calls `deallocate` with the
count 97, the raw tagged field `(24 << 2) | 1`, not with 24. -/
theorem dtor_letters_24 :
    (String.ctor true zeroed Heap.fresh (c_str (letters 24))).1.capacity true = some 24 ∧
    ((String.ctor true zeroed Heap.fresh (c_str (letters 24))).1.medium_ true).capacity_ = 97 ∧
    (String.dtor true (String.ctor true zeroed Heap.fresh (c_str (letters 24))).1
        (String.ctor true zeroed Heap.fresh (c_str (letters 24))).2).calls =
      [AllocCall.allocate 4096 25, AllocCall.deallocate 4096 97] := by
  decide

/-! ## C6: the tag in the raw capacity field -/

/-- C6: for every source sequence of length `L > 23`, in either byte order, the
low 2 bits of the raw capacity field are the tag of the category of the string,
which is `MEDIUM` (`0b01`) or `LARGE` (`0b10`), and `capacity()` is the raw field
shifted right by 2, which is not the raw value. -/
theorem ctor_capacity_detag (le : Bool) (self : String) (h : Heap) (S : List Nat)
    (hS : NulFree S) (h23 : 23 < S.length) (hL : S.length < SIZE_MOD) :
    ((String.ctor le self h (c_str S)).1.medium_ le).capacity_ &&& 3 =
      ((String.ctor le self h (c_str S)).1.category le).val ∧
    ((String.ctor le self h (c_str S)).1.category le = Category.MEDIUM ∨
      (String.ctor le self h (c_str S)).1.category le = Category.LARGE) ∧
    (String.ctor le self h (c_str S)).1.capacity le =
      some (((String.ctor le self h (c_str S)).1.medium_ le).capacity_ >>> 2) ∧
    (String.ctor le self h (c_str S)).1.capacity le ≠
      some ((String.ctor le self h (c_str S)).1.medium_ le).capacity_ := by
  have hraw := ctor_raw_capacity le self h S hS h23 hL
  have hcat := ctor_heap_category le self h S hS h23 hL
  have hcap := ctor_capacity_shift le self h S hS h23 hL
  refine ⟨?_, hcat, hcap, ?_⟩
  · rw [hraw, and_three]
    rcases hcat with hc | hc <;> simp only [hc, Category.val] <;> omega
  · rw [hcap, hraw, shiftRight_two]
    intro heq
    have heq2 := Option.some.inj heq
    rcases hcat with hc | hc <;> simp only [hc, Category.val] at heq2 <;> omega

/-- A source of 24 letters on the big-endian layout: the raw capacity field is
97, its low bits are the tag of `MEDIUM`, and `capacity()` is `97 >> 2`. -/
theorem ctor_capacity_detag_witness :
    ((String.ctor false zeroed Heap.fresh (c_str (letters 24))).1.medium_ false).capacity_ &&& 3
      = ((String.ctor false zeroed Heap.fresh (c_str (letters 24))).1.category false).val ∧
    (String.ctor false zeroed Heap.fresh (c_str (letters 24))).1.capacity false =
      some (((String.ctor false zeroed Heap.fresh (c_str (letters 24))).1.medium_ false).capacity_
        >>> 2) :=
  ⟨(ctor_capacity_detag false zeroed Heap.fresh (letters 24) (by decide) (by decide)
      (by decide)).1,
   (ctor_capacity_detag false zeroed Heap.fresh (letters 24) (by decide) (by decide)
      (by decide)).2.2.1⟩

/-! ## C7: the discriminator byte and the inline characters -/

/-- The low 2 bits of the discriminator byte after the inline path are `00`. -/
theorem init_small_low_bits (le : Bool) (s : String) (data : List Nat) (size : Nat) :
    (s.init_small le data size).bytes_ (last_byte_pos le) &&& 3 = 0 := by
  rw [init_small_bytes, if_pos rfl, and_three]
  simp only [UINT8_MOD]
  omega

/-- Where the isolation holds: on the big-endian layout for every inline length,
and on the little-endian layout for the lengths up to 16, the discriminator byte
lies behind the characters and all of them are kept. -/
theorem discriminator_isolation_where_it_holds (le : Bool) (self : String) (h : Heap)
    (S : List Nat) (hS : NulFree S) (hL : S.length ≤ 23) (hle : le = false ∨ S.length ≤ 16) :
    S.length ≤ last_byte_pos le ∧
    (∀ i, i < S.length → (String.ctor le self h (c_str S)).1.small_ i = S.getD i 0) ∧
    (String.ctor le self h (c_str S)).1.bytes_ (last_byte_pos le) &&& 3 = 0 := by
  have hpos : S.length ≤ last_byte_pos le := by
    rcases hle with hf | h16
    · subst hf
      simp [last_byte_pos, sizeof_bytes_, sizeof_Medium, sizeof_size_t]; omega
    · cases le <;>
        simp [last_byte_pos, sizeof_bytes_, sizeof_Medium, sizeof_size_t] <;> omega
  rw [ctor_small le self h S hS hL]
  refine ⟨hpos, ?_, init_small_low_bits le self _ _⟩
  intro i hi
  have hne : i ≠ last_byte_pos le := by omega
  simp only [String.small_, sizeof_CharT, Nat.mul_one, init_small_bytes, if_neg hne]
  exact strcpy_c_str_lt _ S hS i hi

/-- C7, at a failing input: on the little-endian layout the discriminator byte
is at offset 16, one of the offsets of the characters of a source of 23 letters
`a` (code 97); the copy writes the letter there, `set_small_size` replaces it
with 92, and the character at index 16 is lost. The low 2 bits of the byte are
`00`. -/
theorem discriminator_letters_23 :
    last_byte_pos true = 16 ∧ 16 < (letters 23).length ∧
    (letters 23).getD 16 0 = 97 ∧
    strcpy zeroed.bytes_ (c_str (letters 23)) 16 = 97 ∧
    (String.ctor true zeroed Heap.fresh (c_str (letters 23))).1.small_ 16 = 92 ∧
    (String.ctor true zeroed Heap.fresh (c_str (letters 23))).1.bytes_ (last_byte_pos true)
      &&& 3 = 0 := by
  decide

/-! ## C8: the position of the discriminator byte -/

/-- C8: the block has 24 bytes in three 8-byte fields; `last_byte_pos` is 16, the
block size minus the size of one field, on little-endian and 23, the last byte,
on big-endian; in both byte orders the byte there is the least significant byte
of the capacity field of the heap layout, so for every block `category()` is the
raw capacity field masked with 3. -/
theorem last_byte_pos_low_byte (le : Bool) (s : String)
    (hbytes : ∀ i, s.bytes_ i < UINT8_MOD) :
    sizeof_bytes_ = 24 ∧ sizeof_size_t = 8 ∧
    last_byte_pos true = 16 ∧ last_byte_pos true = sizeof_bytes_ - sizeof_size_t ∧
    last_byte_pos false = 23 ∧ last_byte_pos false = sizeof_bytes_ - 1 ∧
    s.bytes_ (last_byte_pos le) = (s.medium_ le).capacity_ % UINT8_MOD ∧
    s.bytes_ (last_byte_pos le) = (s.large_ le).capacity_ % UINT8_MOD ∧
    s.category le = Category.ofBits ((s.medium_ le).capacity_ &&& 3) ∧
    s.category le = Category.ofBits ((s.large_ le).capacity_ &&& 3) := by
  have hlow : s.bytes_ (last_byte_pos le) =
      load_field le s.bytes_ offsetof_capacity_ % UINT8_MOD := by
    have hb := hbytes (last_byte_pos le)
    cases le <;>
      simp [load_field, last_byte_pos, offsetof_capacity_, byte_of_significance,
        sizeof_bytes_, sizeof_Medium, sizeof_size_t, UINT8_MOD, List.range_succ] at hb ⊢ <;>
      omega
  have hcat : s.category le =
      Category.ofBits (load_field le s.bytes_ offsetof_capacity_ &&& 3) := by
    simp only [String.category, and_three, hlow, UINT8_MOD]
    congr 1
    omega
  exact ⟨rfl, rfl, rfl, rfl, rfl, rfl, hlow, hlow, hcat, hcat⟩

/-- A block with the byte 122 at offsets 16 and 23, on the little-endian layout:
the byte at offset 16 is the low byte of the capacity field and the category is
the field masked with 3. -/
theorem last_byte_pos_low_byte_witness :
    (∀ i, sample_descriptor.bytes_ i < UINT8_MOD) ∧
    sample_descriptor.bytes_ (last_byte_pos true) =
      (sample_descriptor.medium_ true).capacity_ % UINT8_MOD ∧
    sample_descriptor.category true =
      Category.ofBits ((sample_descriptor.medium_ true).capacity_ &&& 3) :=
  have hb : ∀ i, sample_descriptor.bytes_ i < UINT8_MOD := by
    intro i
    simp only [sample_descriptor, UINT8_MOD]
    split <;> decide
  ⟨hb, (last_byte_pos_low_byte true sample_descriptor hb).2.2.2.2.2.2.1,
    (last_byte_pos_low_byte true sample_descriptor hb).2.2.2.2.2.2.2.2.1⟩

/-! ## C9: the calls to the allocator -/

/-- The destructor of a string built on a heap path makes one call, `deallocate`
on the pointer stored, and the allocation of the constructor is gone. -/
theorem dtor_heap (le : Bool) (self : String) (h : Heap) (S : List Nat)
    (hS : NulFree S) (h23 : 23 < S.length) (hL : S.length + 1 < SIZE_MOD) :
    (String.dtor le (String.ctor le self h (c_str S)).1
        (String.ctor le self h (c_str S)).2).calls =
      h.calls ++ [AllocCall.allocate (h.brk % SIZE_MOD) (S.length + 1),
        AllocCall.deallocate (h.brk % SIZE_MOD)
          ((String.ctor le self h (c_str S)).1.medium_ le).capacity_] ∧
    (String.dtor le (String.ctor le self h (c_str S)).1
        (String.ctor le self h (c_str S)).2).cells = h.cells := by
  obtain ⟨cat, hcat, heq⟩ := ctor_heap le self h S hS h23 (by omega)
  rw [heq]
  have hc := heap_descriptor_category le self (h.brk % SIZE_MOD) S.length cat hcat
  rcases hcat with hm | hl
  · subst hm
    simp [String.dtor, hc, String.destroy_medium, destroy_n, Allocator.deallocate,
      String.medium_, heap_descriptor_data_, heap_after_init, erase_cell,
      Nat.mod_eq_of_lt hL]
  · subst hl
    simp [String.dtor, hc, String.destroy_large, destroy_n, Allocator.deallocate,
      String.large_, String.medium_, heap_descriptor_data_, heap_after_init, erase_cell,
      Nat.mod_eq_of_lt hL]

/-- Heap-mode strings constructed and destroyed in sequence leave the outstanding
allocations as they were. -/
theorem construct_destroy_cells (le : Bool) (Ss : List (String × List Nat)) :
    ∀ h : Heap, (∀ x ∈ Ss, NulFree x.2 ∧ 23 < x.2.length ∧ x.2.length + 1 < SIZE_MOD) →
      (construct_destroy le h Ss).cells = h.cells := by
  induction Ss with
  | nil => intro h _; rfl
  | cons x xs ih =>
    intro h hall
    have hx := hall x (List.mem_cons_self x xs)
    simp only [construct_destroy]
    rw [ih _ (fun y hy => hall y (List.mem_cons_of_mem x hy))]
    exact (dtor_heap le x.1 h x.2 hx.1 hx.2.1 hx.2.2).2

/-- C9: constructing a `String` from a sequence of length `L` makes exactly one
call to the allocator, `allocate` for `L + 1` units, when `L > 23`, and none when
`L ≤ 23`; destroying it makes no call when its category is `SMALL` and exactly
one call, `deallocate` on the pointer `allocate` returned, when its category is
`MEDIUM` or `LARGE`; the outstanding allocations are then those from before the
construction, also after any number of heap-mode strings constructed and
destroyed in sequence. -/
theorem allocation_balance (le : Bool) (self : String) (h : Heap) (S : List Nat)
    (hS : NulFree S) (hL : S.length + 1 < SIZE_MOD) :
    (S.length ≤ 23 → (String.ctor le self h (c_str S)).2.calls = h.calls) ∧
    (23 < S.length → (String.ctor le self h (c_str S)).2.calls =
      h.calls ++ [AllocCall.allocate (h.brk % SIZE_MOD) (S.length + 1)]) ∧
    ((String.ctor le self h (c_str S)).1.category le = Category.SMALL →
      (String.dtor le (String.ctor le self h (c_str S)).1
        (String.ctor le self h (c_str S)).2).calls =
      (String.ctor le self h (c_str S)).2.calls) ∧
    ((String.ctor le self h (c_str S)).1.category le = Category.MEDIUM ∨
        (String.ctor le self h (c_str S)).1.category le = Category.LARGE →
      (String.dtor le (String.ctor le self h (c_str S)).1
        (String.ctor le self h (c_str S)).2).calls =
      (String.ctor le self h (c_str S)).2.calls ++
        [AllocCall.deallocate (h.brk % SIZE_MOD)
          ((String.ctor le self h (c_str S)).1.medium_ le).capacity_] ∧
      AllocCall.allocate (h.brk % SIZE_MOD) (S.length + 1) ∈
        (String.ctor le self h (c_str S)).2.calls) ∧
    (String.dtor le (String.ctor le self h (c_str S)).1
      (String.ctor le self h (c_str S)).2).cells = h.cells ∧
    (∀ Ss : List (String × List Nat),
      (∀ x ∈ Ss, NulFree x.2 ∧ 23 < x.2.length ∧ x.2.length + 1 < SIZE_MOD) →
      (construct_destroy le h Ss).cells = h.cells) := by
  have hL2 : S.length < SIZE_MOD := by omega
  have hcat := category_ctor_small le self h S hS
  have hctor_heap : 23 < S.length → (String.ctor le self h (c_str S)).2.calls =
      h.calls ++ [AllocCall.allocate (h.brk % SIZE_MOD) (S.length + 1)] := by
    intro h23
    obtain ⟨cat, _, heq⟩ := ctor_heap le self h S hS h23 hL2
    rw [heq]
    simp only [heap_after_init, Nat.mod_eq_of_lt hL]
  have hsmall_dtor : (String.ctor le self h (c_str S)).1.category le = Category.SMALL →
      String.dtor le (String.ctor le self h (c_str S)).1 (String.ctor le self h (c_str S)).2
        = (String.ctor le self h (c_str S)).2 := by
    intro hc
    simp only [String.dtor, hc]
  refine ⟨?_, hctor_heap, ?_, ?_, ?_, fun Ss hall => construct_destroy_cells le Ss h hall⟩
  · intro h23
    rw [ctor_small le self h S hS h23]
  · intro hc
    rw [hsmall_dtor hc]
  · intro hc
    have h23 : 23 < S.length := by
      by_contra hn
      have hs := hcat (by omega)
      rw [hs] at hc
      rcases hc with hc | hc <;> cases hc
    refine ⟨?_, ?_⟩
    · rw [(dtor_heap le self h S hS h23 hL).1, hctor_heap h23]
      simp
    · rw [hctor_heap h23]
      simp
  · by_cases h23 : S.length ≤ 23
    · rw [hsmall_dtor (hcat h23), ctor_small le self h S hS h23]
    · exact (dtor_heap le self h S hS (by omega) hL).2

/-- A source of 30 letters on the little-endian layout and a free store with
nothing allocated: one `allocate` for 31 units, and nothing outstanding after the
destructor, nor after three heap-mode strings in sequence. -/
theorem allocation_balance_witness :
    (String.ctor true zeroed Heap.fresh (c_str (letters 30))).2.calls =
      Heap.fresh.calls ++
        [AllocCall.allocate (Heap.fresh.brk % SIZE_MOD) ((letters 30).length + 1)] ∧
    (String.dtor true (String.ctor true zeroed Heap.fresh (c_str (letters 30))).1
      (String.ctor true zeroed Heap.fresh (c_str (letters 30))).2).cells = [] ∧
    (construct_destroy true Heap.fresh
      [(zeroed, letters 24), (zeroed, letters 26), (zeroed, letters 300)]).cells = [] :=
  ⟨(allocation_balance true zeroed Heap.fresh (letters 30) (letters_nulFree 30)
      (by rw [letters_length, SIZE_MOD_eq]; omega)).2.1 (by rw [letters_length]; omega),
   (allocation_balance true zeroed Heap.fresh (letters 30) (letters_nulFree 30)
      (by rw [letters_length, SIZE_MOD_eq]; omega)).2.2.2.2.1,
   (allocation_balance true zeroed Heap.fresh (letters 30) (letters_nulFree 30)
      (by rw [letters_length, SIZE_MOD_eq]; omega)).2.2.2.2.2 _ (by
        intro x hx
        simp only [List.mem_cons, List.mem_singleton, List.not_mem_nil, or_false] at hx
        rcases hx with hx | hx | hx <;> subst hx <;>
          exact ⟨letters_nulFree _, by rw [letters_length]; omega,
            by rw [letters_length, SIZE_MOD_eq]; omega⟩)⟩

/-! ## C10: the capacity of an inline string -/

/-- The value `capacity()` computes for a `String` of category `SMALL`: the
number of code units of the raw block, `sizeof(Medium) / sizeof(CharT) = 24`, one
unit more than 23, the largest length for which construction selects `SMALL`. -/
theorem capacity_small (le : Bool) (s : String) (hcat : s.category le = Category.SMALL) :
    s.capacity le = some (sizeof_Medium / sizeof_CharT) ∧
    s.capacity le = some (23 + 1) ∧
    (∀ (self : String) (h : Heap) (S : List Nat), NulFree S → S.length < SIZE_MOD →
      ((String.ctor le self h (c_str S)).1.category le = Category.SMALL ↔ S.length ≤ 23)) := by
  refine ⟨?_, ?_, ?_⟩
  · simp only [String.capacity, hcat]
  · simp only [String.capacity, hcat]
    rfl
  · intro self h S hS hL
    constructor
    · intro hsm
      by_contra hn
      by_cases h25 : S.length ≤ 25
      · rw [category_ctor_medium le self h S hS (by omega) h25] at hsm; cases hsm
      · rw [category_ctor_large le self h S hS (by omega) hL] at hsm; cases hsm
    · exact category_ctor_small le self h S hS

/-- The string built from 23 letters on the big-endian layout is `SMALL` and has
`capacity() = 24`. -/
theorem capacity_small_witness :
    (String.ctor false zeroed Heap.fresh (c_str (letters 23))).1.category false
      = Category.SMALL ∧
    (String.ctor false zeroed Heap.fresh (c_str (letters 23))).1.capacity false
      = some (23 + 1) :=
  ⟨by decide,
    (capacity_small false (String.ctor false zeroed Heap.fresh (c_str (letters 23))).1
      (by decide)).2.1⟩

/-- C10, at a failing input: a source of 23 letters, the largest length that is
stored inline, gives a `SMALL` string whose `capacity()` is 24, not 23; a source
of 24 letters, the length `capacity()` reports, is not `SMALL`, and on its heap
path the capacity is the count allocated less one, 24 of 25 units. -/
theorem capacity_small_letters_23 :
    (String.ctor true zeroed Heap.fresh (c_str (letters 23))).1.category true
      = Category.SMALL ∧
    (String.ctor true zeroed Heap.fresh (c_str (letters 23))).1.capacity true = some 24 ∧
    (String.ctor true zeroed Heap.fresh (c_str (letters 23))).1.capacity true ≠ some 23 ∧
    (String.ctor true zeroed Heap.fresh (c_str (letters 24))).1.category true
      ≠ Category.SMALL ∧
    (String.ctor true zeroed Heap.fresh (c_str (letters 24))).2.calls
      = [AllocCall.allocate 4096 25] ∧
    (String.ctor true zeroed Heap.fresh (c_str (letters 24))).1.capacity true = some 24 := by
  decide

/-! ## C11: the inline output on the little-endian layout -/

/-- The unit at index `i` of a list made by mapping over `List.range`. -/
theorem getD_map_range (f : Nat → Nat) (n i : Nat) (hi : i < n) :
    ((List.range n).map f).getD i 0 = f i := by
  simp [List.getD_eq_getElem?_getD, List.getElem?_map, List.getElem?_range hi]

/-- A list is its units in order. -/
theorem map_getD_range (S : List Nat) : (List.range S.length).map (fun i => S.getD i 0) = S := by
  apply List.ext_getElem
  · simp
  · intro i h1 h2
    simp [List.getD_eq_getElem, h2]

/-- C11: on the little-endian layout the discriminator byte is at offset 16 of
the block; for every NUL-free source sequence `S` of length `L ≤ 23`,
`operator<<` writes exactly `L` units, equal to those of `S` at every index
other than 16, and when `L ≥ 17` the unit at index 16 is `4 * L`, the
discriminator byte; so the output is `S` if and only if `L ≤ 16` or `S[16]` has
the code `4 * L`. -/
theorem operator_lshift_inline_exact (self : String) (h : Heap) (S : List Nat)
    (hS : NulFree S) (hL : S.length ≤ 23) :
    last_byte_pos true = 16 ∧
    (String.operator_lshift true [] (String.ctor true self h (c_str S)).1
      (String.ctor true self h (c_str S)).2).length = S.length ∧
    (∀ i, i < S.length → i ≠ 16 →
      (String.operator_lshift true [] (String.ctor true self h (c_str S)).1
        (String.ctor true self h (c_str S)).2).getD i 0 = S.getD i 0) ∧
    (17 ≤ S.length →
      (String.operator_lshift true [] (String.ctor true self h (c_str S)).1
        (String.ctor true self h (c_str S)).2).getD 16 0 = 4 * S.length) ∧
    (String.operator_lshift true [] (String.ctor true self h (c_str S)).1
        (String.ctor true self h (c_str S)).2 = S ↔
      S.length ≤ 16 ∨ S.getD 16 0 = 4 * S.length) := by
  have hpos : last_byte_pos true = 16 := rfl
  rw [operator_lshift_small true [] self h S hS hL, hpos, List.nil_append]
  have hother : ∀ i, i < S.length → i ≠ 16 →
      ((List.range S.length).map
        (fun i => if i = 16 then 4 * S.length else S.getD i 0)).getD i 0 = S.getD i 0 := by
    intro i hi hne
    rw [getD_map_range _ _ _ hi, if_neg hne]
  have h16 : 17 ≤ S.length →
      ((List.range S.length).map
        (fun i => if i = 16 then 4 * S.length else S.getD i 0)).getD 16 0 = 4 * S.length := by
    intro h17
    rw [getD_map_range _ _ _ (by omega), if_pos rfl]
  refine ⟨rfl, by simp, hother, h16, ?_, ?_⟩
  · intro heq
    by_cases h17 : 17 ≤ S.length
    · right
      have hv := h16 h17
      rw [heq] at hv
      exact hv
    · left
      omega
  · intro hor
    have hmap : (List.range S.length).map
        (fun i => if i = 16 then 4 * S.length else S.getD i 0) =
        (List.range S.length).map (fun i => S.getD i 0) := by
      apply List.map_congr_left
      intro i hi
      have hi2 : i < S.length := List.mem_range.mp hi
      by_cases hne : i = 16
      · subst hne
        rcases hor with hle | hval
        · omega
        · simp only [if_true, hval]
      · simp only [if_neg hne]
    rw [hmap, map_getD_range]

/-- Two sources of 20 units on the little-endian layout: the capitals from `A`
come back with the unit 80 at index 16 in place of 81; the same sequence with
80 at index 16 comes back unchanged. -/
theorem operator_lshift_inline_exact_witness :
    (String.operator_lshift true [] (String.ctor true zeroed Heap.fresh (c_str (capitals 20))).1
      (String.ctor true zeroed Heap.fresh (c_str (capitals 20))).2).getD 16 0
      = 4 * (capitals 20).length ∧
    (capitals 20).getD 16 0 = 81 ∧
    (String.operator_lshift true [] (String.ctor true zeroed Heap.fresh (c_str (capitals 20))).1
      (String.ctor true zeroed Heap.fresh (c_str (capitals 20))).2 ≠ capitals 20) ∧
    String.operator_lshift true []
      (String.ctor true zeroed Heap.fresh (c_str ((capitals 20).set 16 80))).1
      (String.ctor true zeroed Heap.fresh (c_str ((capitals 20).set 16 80))).2
      = (capitals 20).set 16 80 :=
  ⟨(operator_lshift_inline_exact zeroed Heap.fresh (capitals 20) (by decide) (by decide)).2.2.2.1
      (by decide),
    by decide,
    fun heq => absurd
      ((operator_lshift_inline_exact zeroed Heap.fresh (capitals 20) (by decide)
        (by decide)).2.2.2.2.mp heq) (by decide),
    (operator_lshift_inline_exact zeroed Heap.fresh ((capitals 20).set 16 80) (by decide)
      (by decide)).2.2.2.2.mpr (Or.inr (by decide))⟩

/-! ## The raw capacity field by length -/

/-- The raw capacity field after a heap path, with the tag written out: 1 for
the lengths 24 and 25, 2 from 26 on. -/
theorem raw_capacity_by_length (le : Bool) (self : String) (h : Heap) (S : List Nat)
    (hS : NulFree S) (h23 : 23 < S.length) (hL : S.length < SIZE_MOD) :
    ((String.ctor le self h (c_str S)).1.medium_ le).capacity_ =
      4 * (S.length % 256) + (if S.length ≤ 25 then 1 else 2) := by
  rw [ctor_raw_capacity le self h S hS h23 hL]
  by_cases h25 : S.length ≤ 25
  · rw [category_ctor_medium le self h S hS (by omega) h25, if_pos h25]
    rfl
  · rw [category_ctor_large le self h S hS (by omega) hL, if_neg h25]
    rfl

/-! ## C12: the heap capacity is the length modulo 256 -/

/-- C12: `set_capacity` takes the capacity as a `uint8_t`, so for every source
sequence of length `L > 23`, in either byte order, the raw capacity field is
`4 * (L mod 256) + tag` (tag 1 for `MEDIUM`, 2 for `LARGE`) and
`capacity() = L mod 256`; `capacity() = L` exactly when `L ≤ 255`, and
`capacity() < size()` for every `L ≥ 256`. -/
theorem capacity_mod_256 (le : Bool) (self : String) (h : Heap) (S : List Nat)
    (hS : NulFree S) (h23 : 23 < S.length) (hL : S.length < SIZE_MOD) :
    (S.length ≤ 25 →
      (String.ctor le self h (c_str S)).1.category le = Category.MEDIUM ∧
      ((String.ctor le self h (c_str S)).1.medium_ le).capacity_ = 4 * (S.length % 256) + 1) ∧
    (26 ≤ S.length →
      (String.ctor le self h (c_str S)).1.category le = Category.LARGE ∧
      ((String.ctor le self h (c_str S)).1.large_ le).capacity_ = 4 * (S.length % 256) + 2) ∧
    (String.ctor le self h (c_str S)).1.capacity le = some (S.length % 256) ∧
    ((String.ctor le self h (c_str S)).1.capacity le = some S.length ↔ S.length ≤ 255) ∧
    (256 ≤ S.length → ∃ c n,
      (String.ctor le self h (c_str S)).1.capacity le = some c ∧
      (String.ctor le self h (c_str S)).1.size le = some n ∧ c < n) := by
  have hraw := raw_capacity_by_length le self h S hS h23 hL
  have hcap : (String.ctor le self h (c_str S)).1.capacity le = some (S.length % 256) :=
    ctor_capacity_heap le self h S hS h23 hL
  refine ⟨?_, ?_, hcap, ?_, ?_⟩
  · intro h25
    refine ⟨category_ctor_medium le self h S hS (by omega) h25, ?_⟩
    rw [hraw, if_pos h25]
  · intro h26
    refine ⟨category_ctor_large le self h S hS h26 hL, ?_⟩
    have h25 : ¬ S.length ≤ 25 := by omega
    show ((String.ctor le self h (c_str S)).1.medium_ le).capacity_ = _
    rw [hraw, if_neg h25]
  · rw [hcap]
    constructor
    · intro heq
      have := Option.some.inj heq
      omega
    · intro h255
      congr 1
      omega
  · intro h256
    refine ⟨S.length % 256, S.length, hcap, size_ctor le self h S hS hL, ?_⟩
    omega

/-- Sources of 1000 and of 256 letters on the little-endian layout have
`capacity() = 232` and `capacity() = 0`. -/
theorem capacity_mod_256_witness :
    (String.ctor true zeroed Heap.fresh (c_str (letters 1000))).1.capacity true = some 232 ∧
    (String.ctor true zeroed Heap.fresh (c_str (letters 256))).1.capacity true = some 0 := by
  have h1000 := (capacity_mod_256 true zeroed Heap.fresh (letters 1000) (letters_nulFree 1000)
    (by rw [letters_length]; omega) (by rw [letters_length, SIZE_MOD_eq]; omega)).2.2.1
  have h256 := (capacity_mod_256 true zeroed Heap.fresh (letters 256) (letters_nulFree 256)
    (by rw [letters_length]; omega) (by rw [letters_length, SIZE_MOD_eq]; omega)).2.2.1
  rw [letters_length] at h1000 h256
  exact ⟨h1000, h256⟩

/-! ## C13: the count given to `deallocate` and the count allocated -/

/-- C13: for every source sequence of length `L > 23`, in either byte order,
the constructor calls `allocate` for `L + 1` units and the destructor calls
`deallocate`, on the same pointer, with the raw capacity field
`4 * (L mod 256) + tag` (tag 1 for `MEDIUM`, the lengths 24 and 25, and 2 for
`LARGE`); the two counts are equal for the length 341 and for no other. -/
theorem deallocate_count (le : Bool) (self : String) (h : Heap) (S : List Nat)
    (hS : NulFree S) (h23 : 23 < S.length) (hL : S.length + 1 < SIZE_MOD) :
    (String.dtor le (String.ctor le self h (c_str S)).1
        (String.ctor le self h (c_str S)).2).calls =
      h.calls ++ [AllocCall.allocate (h.brk % SIZE_MOD) (S.length + 1),
        AllocCall.deallocate (h.brk % SIZE_MOD)
          (4 * (S.length % 256) + (if S.length ≤ 25 then 1 else 2))] ∧
    ((String.ctor le self h (c_str S)).1.category le =
      if S.length ≤ 25 then Category.MEDIUM else Category.LARGE) ∧
    ((String.ctor le self h (c_str S)).1.medium_ le).capacity_ =
      4 * (S.length % 256) + (if S.length ≤ 25 then 1 else 2) ∧
    (4 * (S.length % 256) + (if S.length ≤ 25 then 1 else 2) = S.length + 1 ↔
      S.length = 341) := by
  have hraw := raw_capacity_by_length le self h S hS h23 (by omega)
  refine ⟨?_, ?_, hraw, ?_⟩
  · rw [(dtor_heap le self h S hS h23 hL).1, hraw]
  · by_cases h25 : S.length ≤ 25
    · rw [if_pos h25]
      exact category_ctor_medium le self h S hS (by omega) h25
    · rw [if_neg h25]
      exact category_ctor_large le self h S hS (by omega) (by omega)
  · by_cases h25 : S.length ≤ 25
    · rw [if_pos h25]
      omega
    · rw [if_neg h25]
      omega

/-- A source of 341 letters on the little-endian layout: `allocate` and
`deallocate` both get the count 342; for 340 letters the counts are 341
and 338. -/
theorem deallocate_count_witness :
    (String.dtor true (String.ctor true zeroed Heap.fresh (c_str (letters 341))).1
        (String.ctor true zeroed Heap.fresh (c_str (letters 341))).2).calls =
      [AllocCall.allocate 4096 342, AllocCall.deallocate 4096 342] ∧
    (String.dtor true (String.ctor true zeroed Heap.fresh (c_str (letters 340))).1
        (String.ctor true zeroed Heap.fresh (c_str (letters 340))).2).calls =
      [AllocCall.allocate 4096 341, AllocCall.deallocate 4096 338] := by
  have h341 := (deallocate_count true zeroed Heap.fresh (letters 341) (letters_nulFree 341)
    (by rw [letters_length]; omega) (by rw [letters_length, SIZE_MOD_eq]; omega)).1
  have h340 := (deallocate_count true zeroed Heap.fresh (letters 340) (letters_nulFree 340)
    (by rw [letters_length]; omega) (by rw [letters_length, SIZE_MOD_eq]; omega)).1
  rw [letters_length] at h341 h340
  exact ⟨h341, h340⟩

end ss
